import Mathlib

/-!
Verification development for the EMLL evaluators library.

The repository provides the declarations of the evaluation engine
(`src/libraries/evaluators/include/Evaluator.h`) together with the free
stream-insertion operator (`src/libraries/linear/src/Base.cpp`).  The
template implementation file `tcc/Evaluator.tcc` referenced by the header is
not part of the sources, so the behaviour of the engine's operations is
modelled from the specification; the data model (member variables, parameter
struct, interface shapes) follows the header.  C++ `double` values are
modelled as rationals: the engine itself performs no floating point
arithmetic, it only transports values produced by collaborators and writes
the literal zero.
-/

namespace ELL

/-- Values carried around by the engine (C++ `double`). -/
abbrev Val := ℚ

namespace linear

/-- A printable value (`linear::Base`): exposes a virtual `Print(ostream&)`.
The mutable output stream is modelled by state passing: a stream is the list
of chunks written so far, and `Print` maps the stream before the call to the
stream after it. -/
structure Base where
  Print : List String → List String

/-- `linear::operator<<(std::ostream& os, const Base& v)` from `Base.cpp`:
calls `v.Print(os)` and returns `os` (the stream as left by `Print`). -/
def streamInsert (os : List String) (v : Base) : List String :=
  v.Print os

end linear

namespace evaluators

/-- `evaluators::EvaluatorParameters` from `Evaluator.h` (lines 48-53):
`uint64_t evaluationFrequency; bool addZeroEvaluation;`. -/
structure EvaluatorParameters where
  evaluationFrequency : ℕ
  addZeroEvaluation : Bool
deriving DecidableEq

/-- A labeled, weighted example (`dataset::SupervisedExample` at the
boundary used by the engine: feature vector, label, weight). -/
structure SupervisedExample where
  features : List Val
  label : Val
  weight : Val

/-- An aggregator collaborator (spec section 6): internal state of type `σ`,
with `Reset` returning to `initState`, `Update(prediction, label, weight)`,
`GetValue()` and `GetValueNames()`.  `state` is its current internal state. -/
structure Aggregator (σ : Type) where
  initState : σ
  state : σ
  update : σ → Val → Val → Val → σ
  getValue : σ → List Val
  getValueNames : List String

/-- `Reset()`: return the aggregator to its initial state. -/
def Aggregator.reset (a : Aggregator σ) : Aggregator σ :=
  { a with state := a.initState }

/-- The evaluation engine state, after the member variables of
`evaluators::Evaluator` in `Evaluator.h` (lines 109-114): the owned dataset
snapshot `_rowDataset`, `_evaluatorParameters`, `_evaluateCounter`
(initialised to 0), the aggregator collection `_aggregatorTuple` (modelled
as a list in construction order, all over one state type), and the history
`_values` with `_values[i][j][k]` the k-th value of the j-th aggregator on
the i-th recorded evaluation. -/
structure Evaluator (σ : Type) where
  rowDataset : List SupervisedExample
  evaluatorParameters : EvaluatorParameters
  evaluateCounter : ℕ
  aggregators : List (Aggregator σ)
  values : List (List (List Val))

/-- Error taxonomy of spec section 7. -/
inductive EvalError where
  | configurationError
  | invalidState
deriving DecidableEq

/-- A predictor collaborator: `Predict(features) -> double`. -/
abbrev Predictor := List Val → Val

/-- Modelled from the spec (the body of `Evaluator::Evaluate` in the missing
`Evaluator.tcc`): one dataset row of a real pass.  Compute
`prediction = predictor(row.features)` once, then call
`Update(prediction, label, weight)` on every aggregator in construction
order. -/
def updateRow (p : Predictor) (ex : SupervisedExample) (aggs : List (Aggregator σ)) :
    List (Aggregator σ) :=
  let prediction := p ex.features
  aggs.map fun a => { a with state := a.update a.state prediction ex.label ex.weight }

/-- Modelled from the spec: the aggregator states produced by a real pass —
reset every aggregator, then feed every snapshot row through `updateRow` in
snapshot order. -/
def passAggs (p : Predictor) (rows : List SupervisedExample) (aggs : List (Aggregator σ)) :
    List (Aggregator σ) :=
  rows.foldl (fun ags ex => updateRow p ex ags) (aggs.map Aggregator.reset)

/-- Modelled from the spec: the history entry appended by a real pass —
`GetValue()` of every aggregator, in construction order, after the pass. -/
def passEntry (p : Predictor) (rows : List SupervisedExample) (aggs : List (Aggregator σ)) :
    List (List Val) :=
  (passAggs p rows aggs).map fun a => a.getValue a.state

/-- Modelled from the spec (`Evaluator::EvaluateZero`, declared in
`Evaluator.h` line 98 with its body in the missing `Evaluator.tcc`): the
synthetic all-zero entry, shaped like a real entry — for every aggregator, a
run of `0.0` of the length its `GetValue()` reports. -/
def zeroEntry (aggs : List (Aggregator σ)) : List (List Val) :=
  aggs.map fun a => List.replicate (a.getValue a.state).length (0 : Val)

/-- Modelled from the spec: `EvaluateZero` appends the synthetic zero entry
to the history. -/
def Evaluator.EvaluateZero (e : Evaluator σ) : Evaluator σ :=
  { e with values := e.values ++ [zeroEntry e.aggregators] }

/-- Modelled from the spec (`Evaluator::Evaluate`, declared in `Evaluator.h`
lines 71-74 with its body in the missing `Evaluator.tcc`), steps 1-5 of
spec section 4.1:
1. on the first call with `addZeroEvaluation` set, first append the
   synthetic zero entry;
2. increment the evaluate counter;
3. a real pass fires on the periodic schedule pinned by spec section 8 —
   on the first call and every `evaluationFrequency`-th call thereafter,
   i.e. when the pre-increment counter is divisible by the frequency;
4. a non-firing call changes nothing else;
5. a firing call resets the aggregators, feeds every snapshot row to every
   aggregator, and appends one entry of every aggregator's values. -/
def Evaluator.Evaluate (e : Evaluator σ) (p : Predictor) : Evaluator σ :=
  let e1 := if e.evaluateCounter = 0 ∧ e.evaluatorParameters.addZeroEvaluation = true then
    e.EvaluateZero else e
  let e2 := { e1 with evaluateCounter := e1.evaluateCounter + 1 }
  if e.evaluateCounter % e.evaluatorParameters.evaluationFrequency = 0 then
    { e2 with
      aggregators := passAggs p e2.rowDataset e2.aggregators,
      values := e2.values ++ [passEntry p e2.rowDataset e2.aggregators] }
  else
    e2

/-- Modelled from the spec: the history entries one call to `Evaluate`
appends — the zero entry on a first call with `addZeroEvaluation`, then the
real entry when the pass fires. -/
def callDelta (e : Evaluator σ) (p : Predictor) : List (List (List Val)) :=
  (if e.evaluateCounter = 0 ∧ e.evaluatorParameters.addZeroEvaluation = true then
    [zeroEntry e.aggregators] else []) ++
  (if e.evaluateCounter % e.evaluatorParameters.evaluationFrequency = 0 then
    [passEntry p e.rowDataset e.aggregators] else [])

/-- N successive calls to `Evaluate` with the same predictor. -/
def evaluateN (e : Evaluator σ) (p : Predictor) : ℕ → Evaluator σ
  | 0 => e
  | n + 1 => (evaluateN e p n).Evaluate p

/-- Successive calls to `Evaluate`, one per predictor in the list. -/
def evaluateSeq (e : Evaluator σ) : List Predictor → Evaluator σ
  | [] => e
  | p :: ps => evaluateSeq (e.Evaluate p) ps

/-- Modelled from the spec (`Evaluator::GetGoodness`, header lines 76-79):
the first value of the first aggregator's values in the most recently
appended history entry; `InvalidState` when the history is empty. -/
def Evaluator.GetGoodness (e : Evaluator σ) : Except EvalError Val :=
  match e.values.getLast? with
  | none => .error .invalidState
  | some entry => .ok ((entry.headD []).headD 0)

/-- `Evaluator::GetValueNames` (header lines 81-84): for each aggregator in
construction order, its value names. -/
def Evaluator.GetValueNames (e : Evaluator σ) : List (List String) :=
  e.aggregators.map fun a => a.getValueNames

/-- `Evaluator::GetValues` (header lines 86-90, defined inline in the
header): the history datastructure `_values`. -/
def Evaluator.GetValues (e : Evaluator σ) : List (List (List Val)) :=
  e.values

/-- Modelled from the spec (`Evaluator::Print`, header lines 92-95): a
header line concatenating every aggregator's value names in aggregator,
then value, order, followed by one line per history entry with its
flattened values in the same order.  The stream is modelled as the list of
rendered lines and the numeric formatting by a renderer argument, since
stream formatting conventions are out of the spec's scope. -/
def Evaluator.Print (e : Evaluator σ) (render : Val → String) : List String :=
  String.join e.GetValueNames.flatten ::
    e.values.map fun entry => String.join (entry.flatten.map render)

/-- Modelled from the spec (the `Evaluator` constructor, header lines 64-69
with its body in the missing `Evaluator.tcc`): drain the iterator into the
owned snapshot, keep aggregators in construction order, store the
parameters, start with counter 0 and empty history; `ConfigurationError`
when the frequency is 0 or some aggregator's value-name count differs from
its value count. -/
def MakeEvaluator (rows : List SupervisedExample) (params : EvaluatorParameters)
    (aggs : List (Aggregator σ)) : Except EvalError (Evaluator σ) :=
  if params.evaluationFrequency = 0 then
    .error .configurationError
  else if aggs.any fun a => (a.getValue a.state).length ≠ a.getValueNames.length then
    .error .configurationError
  else
    .ok { rowDataset := rows, evaluatorParameters := params, evaluateCounter := 0,
          aggregators := aggs, values := [] }

end evaluators

namespace evaluatorsE

open evaluators

/-- A fallible predictor collaborator: `Predict` may raise a failure of
type `ε`. -/
abbrev PredictorE (ε : Type) := List Val → Except ε Val

/-- An aggregator whose `Update` may raise a failure of type `ε`. -/
structure AggregatorE (σ ε : Type) where
  initState : σ
  state : σ
  update : σ → Val → Val → Val → Except ε σ
  getValue : σ → List Val
  getValueNames : List String

/-- `Reset()` for a fallible aggregator. -/
def AggregatorE.reset (a : AggregatorE σ ε) : AggregatorE σ ε :=
  { a with state := a.initState }

/-- The engine state over fallible collaborators. -/
structure EvaluatorE (σ ε : Type) where
  rowDataset : List SupervisedExample
  evaluatorParameters : EvaluatorParameters
  evaluateCounter : ℕ
  aggregators : List (AggregatorE σ ε)
  values : List (List (List Val))

/-- Modelled from the spec: the zero entry over fallible aggregators. -/
def zeroEntryE (aggs : List (AggregatorE σ ε)) : List (List Val) :=
  aggs.map fun a => List.replicate (a.getValue a.state).length (0 : Val)

/-- Modelled from the spec: update every aggregator, in construction order,
with one row's triple.  A failing `Update` propagates, leaving that
aggregator and the ones after it untouched (C++ exception semantics: the
mutations already made stay). -/
def updateAggsE (prediction label weight : Val) :
    List (AggregatorE σ ε) → List (AggregatorE σ ε) × Option ε
  | [] => ([], none)
  | a :: rest =>
    match a.update a.state prediction label weight with
    | .error err => (a :: rest, some err)
    | .ok s =>
      let r := updateAggsE prediction label weight rest
      ({ a with state := s } :: r.1, r.2)

/-- Modelled from the spec: feed the snapshot rows, in order, to the
aggregators; a failure of `Predict` or `Update` stops the pass and
propagates, with the mutations made so far kept. -/
def passRowsE (p : PredictorE ε) (rows : List SupervisedExample)
    (aggs : List (AggregatorE σ ε)) : List (AggregatorE σ ε) × Option ε :=
  match rows with
  | [] => (aggs, none)
  | ex :: rest =>
    match p ex.features with
    | .error err => (aggs, some err)
    | .ok prediction =>
      match updateAggsE prediction ex.label ex.weight aggs with
      | (aggs2, some err) => (aggs2, some err)
      | (aggs2, none) => passRowsE p rest aggs2

/-- Modelled from the spec: `Evaluate` over fallible collaborators, with
C++ exception semantics — the pair is the engine state as left by the call
and the failure, if one was raised.  The zero entry of a first call with
`addZeroEvaluation` is appended before the pass runs; a failing pass
appends no real entry and leaves the aggregators as the failure found
them. -/
def EvaluatorE.Evaluate (e : EvaluatorE σ ε) (p : PredictorE ε) :
    EvaluatorE σ ε × Option ε :=
  let e1 := if e.evaluateCounter = 0 ∧ e.evaluatorParameters.addZeroEvaluation = true then
    { e with values := e.values ++ [zeroEntryE e.aggregators] } else e
  let e2 := { e1 with evaluateCounter := e1.evaluateCounter + 1 }
  if e.evaluateCounter % e.evaluatorParameters.evaluationFrequency = 0 then
    match passRowsE p e2.rowDataset (e2.aggregators.map AggregatorE.reset) with
    | (aggs2, some err) => ({ e2 with aggregators := aggs2 }, some err)
    | (aggs2, none) =>
      ({ e2 with aggregators := aggs2,
                 values := e2.values ++ [aggs2.map fun a => a.getValue a.state] }, none)
  else
    (e2, none)

end evaluatorsE

namespace evaluators

/-- A sample aggregator over rational state: accumulates weighted squared
error, reports one value named "loss". -/
def sampleAgg : Aggregator ℚ where
  initState := 0
  state := 0
  update := fun s p l w => s + w * (p - l) * (p - l)
  getValue := fun s => [s]
  getValueNames := ["loss"]

/-- A sample dataset snapshot with two rows. -/
def sampleRows : List SupervisedExample :=
  [⟨[1], 1, 1⟩, ⟨[2], 0, 1⟩]

/-- A sample aggregator with trivial state, reporting one value named "v". -/
def unitAgg : Aggregator Unit where
  initState := ()
  state := ()
  update := fun s _ _ _ => s
  getValue := fun _ => [0]
  getValueNames := ["v"]

/-- A sample aggregator with trivial state whose single value, named
"loss", is the constant 0.5. -/
def lossAgg : Aggregator Unit where
  initState := ()
  state := ()
  update := fun s _ _ _ => s
  getValue := fun _ => [(1 : Val) / 2]
  getValueNames := ["loss"]

/-- A sample fallible aggregator whose `Update` always succeeds. -/
def unitAggE : evaluatorsE.AggregatorE Unit String where
  initState := ()
  state := ()
  update := fun s _ _ _ => .ok s
  getValue := fun _ => [0]
  getValueNames := ["v"]

/-- A sample predictor whose `Predict` always raises the failure "boom". -/
def failP : evaluatorsE.PredictorE String :=
  fun _ => .error "boom"

/-- A sample fallible-collaborator engine: one-row snapshot, frequency 1,
`addZeroEvaluation` set, fresh counter and history. -/
def sampleEngineE : evaluatorsE.EvaluatorE Unit String where
  rowDataset := [⟨[1], 0, 1⟩]
  evaluatorParameters := ⟨1, true⟩
  evaluateCounter := 0
  aggregators := [unitAggE]
  values := []

theorem evaluate_values (e : Evaluator σ) (p : Predictor) :
    (e.Evaluate p).values = e.values ++ callDelta e p := by
  unfold Evaluator.Evaluate Evaluator.EvaluateZero callDelta
  by_cases h1 : e.evaluateCounter = 0 ∧ e.evaluatorParameters.addZeroEvaluation = true <;>
    by_cases h2 : e.evaluateCounter % e.evaluatorParameters.evaluationFrequency = 0 <;>
    simp [h1, h2]

theorem evaluate_evaluateCounter (e : Evaluator σ) (p : Predictor) :
    (e.Evaluate p).evaluateCounter = e.evaluateCounter + 1 := by
  unfold Evaluator.Evaluate Evaluator.EvaluateZero
  by_cases h1 : e.evaluateCounter = 0 ∧ e.evaluatorParameters.addZeroEvaluation = true <;>
    by_cases h2 : e.evaluateCounter % e.evaluatorParameters.evaluationFrequency = 0 <;>
    simp [h1, h2]

theorem evaluate_evaluatorParameters (e : Evaluator σ) (p : Predictor) :
    (e.Evaluate p).evaluatorParameters = e.evaluatorParameters := by
  unfold Evaluator.Evaluate Evaluator.EvaluateZero
  by_cases h1 : e.evaluateCounter = 0 ∧ e.evaluatorParameters.addZeroEvaluation = true <;>
    by_cases h2 : e.evaluateCounter % e.evaluatorParameters.evaluationFrequency = 0 <;>
    simp [h1, h2]

theorem evaluate_rowDataset (e : Evaluator σ) (p : Predictor) :
    (e.Evaluate p).rowDataset = e.rowDataset := by
  unfold Evaluator.Evaluate Evaluator.EvaluateZero
  by_cases h1 : e.evaluateCounter = 0 ∧ e.evaluatorParameters.addZeroEvaluation = true <;>
    by_cases h2 : e.evaluateCounter % e.evaluatorParameters.evaluationFrequency = 0 <;>
    simp [h1, h2]

theorem evaluate_aggregators (e : Evaluator σ) (p : Predictor) :
    (e.Evaluate p).aggregators =
      if e.evaluateCounter % e.evaluatorParameters.evaluationFrequency = 0 then
        passAggs p e.rowDataset e.aggregators
      else
        e.aggregators := by
  unfold Evaluator.Evaluate Evaluator.EvaluateZero
  by_cases h1 : e.evaluateCounter = 0 ∧ e.evaluatorParameters.addZeroEvaluation = true <;>
    by_cases h2 : e.evaluateCounter % e.evaluatorParameters.evaluationFrequency = 0 <;>
    simp [h1, h2]

theorem evaluateN_zero (e : Evaluator σ) (p : Predictor) : evaluateN e p 0 = e :=
  rfl

theorem evaluateN_succ (e : Evaluator σ) (p : Predictor) (n : ℕ) :
    evaluateN e p (n + 1) = (evaluateN e p n).Evaluate p :=
  rfl

theorem evaluateN_evaluateCounter (e : Evaluator σ) (p : Predictor) (n : ℕ) :
    (evaluateN e p n).evaluateCounter = e.evaluateCounter + n := by
  induction n with
  | zero => rfl
  | succ n ih =>
    rw [evaluateN, evaluate_evaluateCounter, ih]
    omega

theorem evaluateN_evaluatorParameters (e : Evaluator σ) (p : Predictor) (n : ℕ) :
    (evaluateN e p n).evaluatorParameters = e.evaluatorParameters := by
  induction n with
  | zero => rfl
  | succ n ih => rw [evaluateN, evaluate_evaluatorParameters, ih]

theorem evaluateN_rowDataset (e : Evaluator σ) (p : Predictor) (n : ℕ) :
    (evaluateN e p n).rowDataset = e.rowDataset := by
  induction n with
  | zero => rfl
  | succ n ih => rw [evaluateN, evaluate_rowDataset, ih]

theorem passAggs_aux (p : Predictor) (rows : List SupervisedExample)
    (ags : List (Aggregator σ)) :
    rows.foldl (fun ags ex => updateRow p ex ags) ags =
      ags.map fun a =>
        { a with
          state := rows.foldl (fun s ex => a.update s (p ex.features) ex.label ex.weight)
            a.state } := by
  induction rows generalizing ags with
  | nil => simp
  | cons ex rest ih =>
    rw [List.foldl_cons, ih (updateRow p ex ags)]
    simp [updateRow, List.map_map]

theorem passAggs_eq_map (p : Predictor) (rows : List SupervisedExample)
    (aggs : List (Aggregator σ)) :
    passAggs p rows aggs =
      aggs.map fun a =>
        { a with
          state :=
            rows.foldl (fun s ex => a.update s (p ex.features) ex.label ex.weight)
              a.initState } := by
  rw [passAggs, passAggs_aux, List.map_map]
  refine List.map_congr_left fun a _ => ?_
  simp [Aggregator.reset]

theorem passAggs_getValueNames (p : Predictor) (rows : List SupervisedExample)
    (aggs : List (Aggregator σ)) :
    (passAggs p rows aggs).map (fun a => a.getValueNames) =
      aggs.map fun a => a.getValueNames := by
  rw [passAggs_eq_map, List.map_map]
  rfl

theorem passAggs_contract (p : Predictor) (rows : List SupervisedExample)
    (aggs : List (Aggregator σ))
    (hA : ∀ a ∈ aggs, ∀ s, (a.getValue s).length = a.getValueNames.length) :
    ∀ a ∈ passAggs p rows aggs, ∀ s, (a.getValue s).length = a.getValueNames.length := by
  intro a ha
  rw [passAggs_eq_map] at ha
  obtain ⟨b, hb, rfl⟩ := List.mem_map.mp ha
  exact hA b hb

theorem zeroEntry_shape (aggs : List (Aggregator σ))
    (hA : ∀ a ∈ aggs, ∀ s, (a.getValue s).length = a.getValueNames.length) :
    (zeroEntry aggs).map List.length = aggs.map fun a => a.getValueNames.length := by
  rw [zeroEntry, List.map_map]
  refine List.map_congr_left fun a ha => ?_
  simpa using hA a ha a.state

theorem passEntry_shape (p : Predictor) (rows : List SupervisedExample)
    (aggs : List (Aggregator σ))
    (hA : ∀ a ∈ aggs, ∀ s, (a.getValue s).length = a.getValueNames.length) :
    (passEntry p rows aggs).map List.length = aggs.map fun a => a.getValueNames.length := by
  rw [passEntry, passAggs_eq_map, List.map_map, List.map_map]
  refine List.map_congr_left fun a ha => ?_
  exact hA a ha _

theorem evaluate_preserves_shape (e : Evaluator σ) (p : Predictor)
    (hA : ∀ a ∈ e.aggregators, ∀ s, (a.getValue s).length = a.getValueNames.length)
    (hv : ∀ entry ∈ e.values,
      entry.map List.length = e.aggregators.map fun a => a.getValueNames.length) :
    (∀ a ∈ (e.Evaluate p).aggregators, ∀ s,
      (a.getValue s).length = a.getValueNames.length) ∧
    ((e.Evaluate p).aggregators.map fun a => a.getValueNames) =
      (e.aggregators.map fun a => a.getValueNames) ∧
    (∀ entry ∈ (e.Evaluate p).values,
      entry.map List.length = (e.Evaluate p).aggregators.map fun a => a.getValueNames.length) := by
  have hnames : ((e.Evaluate p).aggregators.map fun a => a.getValueNames) =
      (e.aggregators.map fun a => a.getValueNames) := by
    rw [evaluate_aggregators]
    by_cases hfire : e.evaluateCounter % e.evaluatorParameters.evaluationFrequency = 0
    · rw [if_pos hfire, passAggs_getValueNames]
    · rw [if_neg hfire]
  have hlen : ((e.Evaluate p).aggregators.map fun a => a.getValueNames.length) =
      (e.aggregators.map fun a => a.getValueNames.length) := by
    have := congrArg (List.map List.length) hnames
    rwa [List.map_map, List.map_map] at this
  refine ⟨?_, hnames, ?_⟩
  · rw [evaluate_aggregators]
    by_cases hfire : e.evaluateCounter % e.evaluatorParameters.evaluationFrequency = 0
    · rw [if_pos hfire]
      exact passAggs_contract p e.rowDataset e.aggregators hA
    · rw [if_neg hfire]
      exact hA
  · intro entry hmem
    rw [evaluate_values] at hmem
    rw [hlen]
    rcases List.mem_append.mp hmem with hold | hnew
    · exact hv entry hold
    · rw [callDelta] at hnew
      rcases List.mem_append.mp hnew with hzero | hpass
      · have : entry = zeroEntry e.aggregators := by
          by_cases h1 : e.evaluateCounter = 0 ∧ e.evaluatorParameters.addZeroEvaluation = true
          · rw [if_pos h1] at hzero
            simpa using hzero
          · rw [if_neg h1] at hzero
            simp at hzero
        rw [this]
        exact zeroEntry_shape e.aggregators hA
      · have : entry = passEntry p e.rowDataset e.aggregators := by
          by_cases h2 : e.evaluateCounter % e.evaluatorParameters.evaluationFrequency = 0
          · rw [if_pos h2] at hpass
            simpa using hpass
          · rw [if_neg h2] at hpass
            simp at hpass
        rw [this]
        exact passEntry_shape p e.rowDataset e.aggregators hA

/-- C5: starting from an engine whose aggregators satisfy the lifetime
arity contract and whose recorded entries match the declared shape, after
any sequence of `Evaluate` calls every history entry has one value
sequence per aggregator whose length equals that aggregator's value-name
count — the shape is the same for all entries and the value names are
unchanged. -/
theorem getValues_shape_invariant (e : Evaluator σ) (ps : List Predictor)
    (hA : ∀ a ∈ e.aggregators, ∀ s, (a.getValue s).length = a.getValueNames.length)
    (hv : ∀ entry ∈ e.values,
      entry.map List.length = e.aggregators.map fun a => a.getValueNames.length) :
    (evaluateSeq e ps).GetValueNames = e.GetValueNames ∧
    ∀ entry ∈ (evaluateSeq e ps).GetValues,
      entry.map List.length = e.GetValueNames.map List.length := by
  induction ps generalizing e with
  | nil =>
    refine ⟨rfl, fun entry hmem => ?_⟩
    rw [Evaluator.GetValueNames, List.map_map]
    exact hv entry hmem
  | cons p ps ih =>
    have hpres := evaluate_preserves_shape e p hA hv
    have hrec := ih (e.Evaluate p) hpres.1 hpres.2.2
    refine ⟨?_, ?_⟩
    · rw [evaluateSeq, hrec.1, Evaluator.GetValueNames, Evaluator.GetValueNames, hpres.2.1]
    · intro entry hmem
      rw [evaluateSeq] at hmem
      have := hrec.2 entry hmem
      rw [this, Evaluator.GetValueNames, Evaluator.GetValueNames, List.map_map, List.map_map]
      have := congrArg (List.map List.length) hpres.2.1
      rw [List.map_map, List.map_map] at this
      exact this

/-- C5 witness. -/
theorem getValues_shape_invariant_witness :
    (evaluateSeq (⟨sampleRows, ⟨1, false⟩, 0, [sampleAgg], []⟩ : Evaluator ℚ)
        [fun _ => 0]).GetValueNames =
      (⟨sampleRows, ⟨1, false⟩, 0, [sampleAgg], []⟩ : Evaluator ℚ).GetValueNames ∧
    ∀ entry ∈ (evaluateSeq (⟨sampleRows, ⟨1, false⟩, 0, [sampleAgg], []⟩ : Evaluator ℚ)
        [fun _ => 0]).GetValues,
      entry.map List.length =
        (⟨sampleRows, ⟨1, false⟩, 0, [sampleAgg], []⟩ : Evaluator ℚ).GetValueNames.map
          List.length := by
  refine getValues_shape_invariant _ [fun _ => 0] ?_ ?_
  · intro a ha s
    simp [sampleAgg] at ha
    subst ha
    simp [sampleAgg]
  · intro entry hmem
    simp at hmem

/-- C7: `MakeEvaluator` fails with `ConfigurationError` exactly when the
evaluation frequency is 0 or some aggregator's value-name count differs
from its value count; every failure is a `ConfigurationError`; a successful
construction has counter 0, empty history, and stores the snapshot, the
aggregators in construction order and the parameters. -/
theorem makeEvaluator_spec (rows : List SupervisedExample) (params : EvaluatorParameters)
    (aggs : List (Aggregator σ)) :
    ((∃ err, MakeEvaluator rows params aggs = .error err) ↔
      params.evaluationFrequency = 0 ∨
        ∃ a ∈ aggs, (a.getValue a.state).length ≠ a.getValueNames.length) ∧
    (∀ err, MakeEvaluator rows params aggs = .error err → err = .configurationError) ∧
    (∀ e, MakeEvaluator rows params aggs = .ok e →
      e.evaluateCounter = 0 ∧ e.values = [] ∧ e.rowDataset = rows ∧
        e.aggregators = aggs ∧ e.evaluatorParameters = params) := by
  unfold MakeEvaluator
  by_cases h1 : params.evaluationFrequency = 0
  · simp [h1]
  · by_cases h2 : (aggs.any fun a => (a.getValue a.state).length ≠ a.getValueNames.length) = true
    · have h2' : ∃ a ∈ aggs, (a.getValue a.state).length ≠ a.getValueNames.length := by
        simpa [List.any_eq_true] using h2
      rw [if_neg h1, if_pos h2]
      simp [h1, h2']
    · have h2' : ¬ ∃ a ∈ aggs, (a.getValue a.state).length ≠ a.getValueNames.length := by
        simpa [List.any_eq_true] using h2
      rw [if_neg h1, if_neg h2]
      refine ⟨by simp [h1, h2'], by simp, ?_⟩
      intro e he
      injection he with he
      subst he
      simp

/-- C7 witness. -/
theorem makeEvaluator_spec_witness :
    ∃ e : Evaluator ℚ, MakeEvaluator sampleRows ⟨1, false⟩ [sampleAgg] = .ok e ∧
      e.evaluateCounter = 0 ∧ e.values = [] := by
  have h := makeEvaluator_spec sampleRows ⟨1, false⟩ [sampleAgg]
  refine ⟨_, rfl, ?_⟩
  have h3 := h.2.2 _ rfl
  exact ⟨h3.1, h3.2.1⟩

/-- C3: `GetGoodness` fails with `InvalidState` exactly when the history is
empty; otherwise it returns the first value of the first aggregator's value
sequence of the most recently appended entry; in particular it fails on a
freshly constructed engine. -/
theorem getGoodness_spec (e : Evaluator σ) :
    (e.GetGoodness = .error .invalidState ↔ e.values = []) ∧
    (∀ pre entry, e.values = pre ++ [entry] →
      e.GetGoodness = .ok ((entry.headD []).headD 0)) ∧
    (∀ (rows : List SupervisedExample) (params : EvaluatorParameters)
        (aggs : List (Aggregator σ)) (e0 : Evaluator σ),
      MakeEvaluator rows params aggs = .ok e0 →
        e0.GetGoodness = .error .invalidState) := by
  refine ⟨?_, ?_, ?_⟩
  · unfold Evaluator.GetGoodness
    cases hv : e.values.getLast? with
    | none =>
      rw [List.getLast?_eq_none_iff] at hv
      simp [hv]
    | some entry =>
      have : e.values ≠ [] := by
        intro h
        rw [h] at hv
        exact Option.noConfusion hv
      simp [this]
  · intro pre entry h
    unfold Evaluator.GetGoodness
    rw [h, List.getLast?_concat]
  · intro rows params aggs e0 h
    unfold MakeEvaluator at h
    split at h
    · exact Except.noConfusion h
    · split at h
      · exact Except.noConfusion h
      · injection h with h
        subst h
        rfl

/-- C3 witness. -/
theorem getGoodness_spec_witness :
    ((⟨[], ⟨1, false⟩, 1, [], [[[(1 : Val) / 2]]]⟩ : Evaluator Unit).GetGoodness =
      .ok (1 / 2)) ∧
    ((⟨[], ⟨1, false⟩, 0, [], []⟩ : Evaluator Unit).GetGoodness = .error .invalidState) := by
  constructor
  · exact (getGoodness_spec (⟨[], ⟨1, false⟩, 1, [], [[[(1 : Val) / 2]]]⟩ :
      Evaluator Unit)).2.1 [] [[(1 : Val) / 2]] rfl
  · exact ((getGoodness_spec (⟨[], ⟨1, false⟩, 0, [], []⟩ : Evaluator Unit)).1).mpr rfl

/-- C8: `Print` renders one header line of the concatenated value names in
aggregator-then-value order followed by one line per history entry with its
flattened values in the same order; with one aggregator named "loss" and
one entry holding 0.5 it renders exactly the lines "loss" and "0.5". -/
theorem print_spec :
    (∀ (e : Evaluator σ) (render : Val → String),
      (e.Print render).length = e.values.length + 1 ∧
      e.Print render =
        String.join e.GetValueNames.flatten ::
          e.values.map fun entry => String.join (entry.flatten.map render)) ∧
    (∀ (e : Evaluator σ) (render : Val → String),
      e.GetValueNames = [["loss"]] → e.values = [[[(1 : Val) / 2]]] →
      render (1 / 2) = "0.5" →
      e.Print render = ["loss", "0.5"]) := by
  constructor
  · intro e render
    exact ⟨by simp [Evaluator.Print], rfl⟩
  · intro e render h1 h2 h3
    unfold Evaluator.Print
    rw [h1, h2]
    simp only [List.flatten_cons, List.flatten_nil, List.append_nil, List.map_cons,
      List.map_nil]
    rw [h3]
    decide

/-- C8 witness. -/
theorem print_spec_witness :
    (⟨[], ⟨1, false⟩, 1, [lossAgg], [[[(1 : Val) / 2]]]⟩ :
      Evaluator Unit).Print (fun _ => "0.5") = ["loss", "0.5"] := by
  exact (print_spec (σ := Unit)).2 _ (fun _ => "0.5") rfl rfl rfl

/-- C2: with `addZeroEvaluation = true` the history after any positive
number of calls is exactly the synthetic zero entry followed by the history
the same calls produce with `addZeroEvaluation = false`: the zero entry is
appended on the first call only, as the very first entry, before any real
computation and independent of the frequency schedule. -/
theorem evaluate_zero_entry_first (rows : List SupervisedExample) (f : ℕ)
    (aggs : List (Aggregator σ)) (p : Predictor) (N : ℕ) (hN : 1 ≤ N) :
    (evaluateN (⟨rows, ⟨f, true⟩, 0, aggs, []⟩ : Evaluator σ) p N).values =
      zeroEntry aggs ::
        (evaluateN (⟨rows, ⟨f, false⟩, 0, aggs, []⟩ : Evaluator σ) p N).values := by
  obtain ⟨n, rfl⟩ : ∃ n, N = n + 1 := ⟨N - 1, by omega⟩
  clear hN
  suffices h : ∀ n : ℕ,
      (evaluateN (⟨rows, ⟨f, true⟩, 0, aggs, []⟩ : Evaluator σ) p (n + 1)).values =
        zeroEntry aggs ::
          (evaluateN (⟨rows, ⟨f, false⟩, 0, aggs, []⟩ : Evaluator σ) p (n + 1)).values ∧
      (evaluateN (⟨rows, ⟨f, true⟩, 0, aggs, []⟩ : Evaluator σ) p (n + 1)).aggregators =
        (evaluateN (⟨rows, ⟨f, false⟩, 0, aggs, []⟩ : Evaluator σ) p (n + 1)).aggregators by
    exact (h n).1
  intro n
  induction n with
  | zero =>
    constructor
    · rw [evaluateN_succ (⟨rows, ⟨f, true⟩, 0, aggs, []⟩ : Evaluator σ) p 0,
        evaluateN_succ (⟨rows, ⟨f, false⟩, 0, aggs, []⟩ : Evaluator σ) p 0,
        evaluateN_zero, evaluateN_zero, evaluate_values, evaluate_values,
        callDelta, callDelta]
      by_cases hfire : (0 : ℕ) % f = 0 <;> simp [hfire]
    · rw [evaluateN_succ (⟨rows, ⟨f, true⟩, 0, aggs, []⟩ : Evaluator σ) p 0,
        evaluateN_succ (⟨rows, ⟨f, false⟩, 0, aggs, []⟩ : Evaluator σ) p 0,
        evaluateN_zero, evaluateN_zero, evaluate_aggregators, evaluate_aggregators]
  | succ n ih =>
    have hcT : (evaluateN (⟨rows, ⟨f, true⟩, 0, aggs, []⟩ : Evaluator σ) p
        (n + 1)).evaluateCounter = n + 1 := by
      simp [evaluateN_evaluateCounter]
    have hcF : (evaluateN (⟨rows, ⟨f, false⟩, 0, aggs, []⟩ : Evaluator σ) p
        (n + 1)).evaluateCounter = n + 1 := by
      simp [evaluateN_evaluateCounter]
    have hpT : (evaluateN (⟨rows, ⟨f, true⟩, 0, aggs, []⟩ : Evaluator σ) p
        (n + 1)).evaluatorParameters = ⟨f, true⟩ := evaluateN_evaluatorParameters _ _ _
    have hpF : (evaluateN (⟨rows, ⟨f, false⟩, 0, aggs, []⟩ : Evaluator σ) p
        (n + 1)).evaluatorParameters = ⟨f, false⟩ := evaluateN_evaluatorParameters _ _ _
    have hrT : (evaluateN (⟨rows, ⟨f, true⟩, 0, aggs, []⟩ : Evaluator σ) p
        (n + 1)).rowDataset = rows := evaluateN_rowDataset _ _ _
    have hrF : (evaluateN (⟨rows, ⟨f, false⟩, 0, aggs, []⟩ : Evaluator σ) p
        (n + 1)).rowDataset = rows := evaluateN_rowDataset _ _ _
    constructor
    · rw [evaluateN_succ (⟨rows, ⟨f, true⟩, 0, aggs, []⟩ : Evaluator σ) p (n + 1),
        evaluateN_succ (⟨rows, ⟨f, false⟩, 0, aggs, []⟩ : Evaluator σ) p (n + 1),
        evaluate_values, evaluate_values, callDelta, callDelta,
        hcT, hcF, hpT, hpF, hrT, hrF, ih.1, ih.2]
      simp
    · rw [evaluateN_succ (⟨rows, ⟨f, true⟩, 0, aggs, []⟩ : Evaluator σ) p (n + 1),
        evaluateN_succ (⟨rows, ⟨f, false⟩, 0, aggs, []⟩ : Evaluator σ) p (n + 1),
        evaluate_aggregators, evaluate_aggregators,
        hcT, hcF, hpT, hpF, hrT, hrF, ih.2]

/-- C2 witness. -/
theorem evaluate_zero_entry_first_witness :
    (evaluateN (⟨[], ⟨2, true⟩, 0, [unitAgg], []⟩ : Evaluator Unit) (fun _ => 0) 2).values =
      zeroEntry [unitAgg] ::
        (evaluateN (⟨[], ⟨2, false⟩, 0, [unitAgg], []⟩ : Evaluator Unit) (fun _ => 0) 2).values :=
  evaluate_zero_entry_first [] 2 [unitAgg] (fun _ => 0) 2 (by decide)

/-- C6 counterexample: on the first call with `addZeroEvaluation = true`
and frequency 1, one call to `Evaluate` appends two history entries (the
synthetic zero entry and the real entry), not "zero or one". -/
theorem evaluate_appends_two_cex :
    ((⟨[], ⟨1, true⟩, 0, [unitAgg], []⟩ : Evaluator Unit).Evaluate fun _ => 0).values.length =
      (⟨[], ⟨1, true⟩, 0, [unitAgg], []⟩ : Evaluator Unit).values.length + 2 := by
  decide

/-- C6 (amended): every call to `Evaluate` increments the counter by
exactly one, and the history is append-only, growing by at most two entries
on a first call with `addZeroEvaluation` set (the zero entry plus possibly
the real entry) and by at most one entry on every other call. -/
theorem evaluate_counter_and_append_only (e : Evaluator σ) (p : Predictor) :
    (e.Evaluate p).evaluateCounter = e.evaluateCounter + 1 ∧
    (e.Evaluate p).values = e.values ++ callDelta e p ∧
    (callDelta e p).length ≤ 2 ∧
    (¬(e.evaluateCounter = 0 ∧ e.evaluatorParameters.addZeroEvaluation = true) →
      (callDelta e p).length ≤ 1) := by
  refine ⟨evaluate_evaluateCounter e p, evaluate_values e p, ?_, ?_⟩
  · unfold callDelta
    by_cases h1 : e.evaluateCounter = 0 ∧ e.evaluatorParameters.addZeroEvaluation = true <;>
      by_cases h2 : e.evaluateCounter % e.evaluatorParameters.evaluationFrequency = 0 <;>
      simp [h1, h2]
  · intro h1
    unfold callDelta
    by_cases h2 : e.evaluateCounter % e.evaluatorParameters.evaluationFrequency = 0 <;>
      simp [h1, h2]

/-- C4: on a firing call, `Evaluate` resets every aggregator in
construction order, folds every snapshot row in order through every
aggregator's `Update` with `prediction = predictor(row.features)`, leaves
the aggregators in the folded states, and appends exactly one new history
entry holding every aggregator's `GetValue()` in construction order. -/
theorem evaluate_real_pass (e : Evaluator σ) (p : Predictor)
    (hfire : e.evaluateCounter % e.evaluatorParameters.evaluationFrequency = 0) :
    (e.Evaluate p).aggregators =
      (e.aggregators.map fun a =>
        { a with
          state := e.rowDataset.foldl
            (fun s ex => a.update s (p ex.features) ex.label ex.weight) a.initState }) ∧
    (e.Evaluate p).values =
      (if e.evaluateCounter = 0 ∧ e.evaluatorParameters.addZeroEvaluation = true then
        e.values ++ [zeroEntry e.aggregators] else e.values) ++
      [e.aggregators.map fun a =>
        a.getValue (e.rowDataset.foldl
          (fun s ex => a.update s (p ex.features) ex.label ex.weight) a.initState)] := by
  constructor
  · rw [evaluate_aggregators, if_pos hfire, passAggs_eq_map]
  · rw [evaluate_values, callDelta, if_pos hfire]
    have hentry : passEntry p e.rowDataset e.aggregators =
        e.aggregators.map fun a =>
          a.getValue (e.rowDataset.foldl
            (fun s ex => a.update s (p ex.features) ex.label ex.weight) a.initState) := by
      rw [passEntry, passAggs_eq_map, List.map_map]
      rfl
    rw [hentry]
    by_cases h1 : e.evaluateCounter = 0 ∧ e.evaluatorParameters.addZeroEvaluation = true <;>
      simp [h1]

/-- C4 witness. -/
theorem evaluate_real_pass_witness :
    ((⟨sampleRows, ⟨1, false⟩, 0, [sampleAgg], []⟩ : Evaluator ℚ).Evaluate
      fun fs => fs.headD 0).values = [[[4]]] := by
  have h := evaluate_real_pass (⟨sampleRows, ⟨1, false⟩, 0, [sampleAgg], []⟩ : Evaluator ℚ)
    (fun fs => fs.headD 0) (by decide)
  rw [h.2]
  norm_num [sampleRows, sampleAgg]

/-- Counting step for the periodic schedule: adding one more call index
adds one to the ceiling count exactly when the new index fires. -/
theorem ceil_div_step (f N : ℕ) (hf : 0 < f) :
    (N + f - 1) / f + (if N % f = 0 then 1 else 0) = (N + f) / f := by
  have hd := Nat.div_add_mod N f
  have hmul : f * (N / f + 1) = f * (N / f) + f := Nat.mul_succ f (N / f)
  by_cases h : N % f = 0
  · have h1 : N + f - 1 = (f - 1) + f * (N / f) := by omega
    have h2 : N + f = 0 + f * (N / f + 1) := by omega
    rw [if_pos h, h1, h2, Nat.add_mul_div_left _ _ hf, Nat.add_mul_div_left _ _ hf,
      Nat.div_eq_of_lt (by omega), Nat.zero_div]
    omega
  · have hm : N % f < f := Nat.mod_lt _ hf
    have h1 : N + f - 1 = (N % f - 1) + f * (N / f + 1) := by omega
    have h2 : N + f = (N % f) + f * (N / f + 1) := by omega
    have hd1 : (N % f - 1) / f = 0 := Nat.div_eq_of_lt (by omega)
    have hd2 : (N % f) / f = 0 := Nat.div_eq_of_lt hm
    rw [if_neg h, h1, h2, Nat.add_mul_div_left _ _ hf, Nat.add_mul_div_left _ _ hf, hd1, hd2]
    omega

/-- C1: with positive frequency f and `addZeroEvaluation = false`, N calls
to `Evaluate` leave exactly ceil(N/f) history entries — the pass fires on
the first call and every f-th call thereafter — and a non-firing call
leaves the history unchanged. -/
theorem evaluate_history_ceil (e : Evaluator σ) (p : Predictor) (f N : ℕ)
    (hf : 0 < f) (hp : e.evaluatorParameters = ⟨f, false⟩)
    (hc : e.evaluateCounter = 0) (hv : e.values = []) :
    (evaluateN e p N).values.length = (N + f - 1) / f ∧
    (∀ (e2 : Evaluator σ) (p2 : Predictor),
      e2.evaluatorParameters.addZeroEvaluation = false →
      ¬ e2.evaluateCounter % e2.evaluatorParameters.evaluationFrequency = 0 →
      (e2.Evaluate p2).values = e2.values) := by
  constructor
  · induction N with
    | zero =>
      rw [evaluateN, hv]
      exact (Nat.div_eq_of_lt (by omega)).symm
    | succ n ih =>
      rw [evaluateN, evaluate_values, List.length_append, ih, callDelta]
      have h1 : (evaluateN e p n).evaluatorParameters = ⟨f, false⟩ :=
        (evaluateN_evaluatorParameters e p n).trans hp
      have h2 : (evaluateN e p n).evaluateCounter = n := by
        rw [evaluateN_evaluateCounter, hc, Nat.zero_add]
      rw [h1, h2]
      have hstep := ceil_div_step f n hf
      have hsucc : n + 1 + f - 1 = n + f := by omega
      rw [hsucc]
      by_cases hnf : n % f = 0
      · rw [if_pos hnf] at hstep
        simpa [hnf] using hstep
      · rw [if_neg hnf] at hstep
        simpa [hnf] using hstep
  · intro e2 p2 hz hnf
    rw [evaluate_values, callDelta, if_neg hnf]
    simp [hz]

/-- C1 witness. -/
theorem evaluate_history_ceil_witness :
    (evaluateN (⟨[], ⟨2, false⟩, 0, [unitAgg], []⟩ : Evaluator Unit) (fun _ => 0) 3).values.length =
      (3 + 2 - 1) / 2 :=
  (evaluate_history_ceil (⟨[], ⟨2, false⟩, 0, [unitAgg], []⟩ : Evaluator Unit) (fun _ => 0) 2 3
    (by decide) rfl rfl rfl).1

/-- C6 witness. -/
theorem evaluate_counter_and_append_only_witness :
    ((⟨[], ⟨2, false⟩, 1, [unitAgg], []⟩ : Evaluator Unit).Evaluate fun _ => 0).evaluateCounter =
      1 + 1 ∧
    (callDelta (⟨[], ⟨2, false⟩, 1, [unitAgg], []⟩ : Evaluator Unit) fun _ => 0).length ≤ 1 := by
  have h := evaluate_counter_and_append_only
    (⟨[], ⟨2, false⟩, 1, [unitAgg], []⟩ : Evaluator Unit) (fun _ => 0)
  exact ⟨h.1, h.2.2.2 (by simp)⟩

end evaluators

namespace evaluatorsE

open evaluators

/-- C9 counterexample: a first `Evaluate` call with `addZeroEvaluation`
set whose predictor raises a failure still appends the synthetic zero
entry appended before the pass: the failure propagates, but the history
is not left unchanged by the call. -/
theorem evaluateE_failure_cex :
    (sampleEngineE.Evaluate failP).2 = some "boom" ∧
    (sampleEngineE.Evaluate failP).1.values.length = sampleEngineE.values.length + 1 :=
  ⟨rfl, rfl⟩

/-- C9 (amended): a collaborator failure during `Update` or `Predict`
propagates to the caller of `Evaluate` and the call appends no real
evaluation entry — previously recorded entries remain intact — but the
synthetic zero entry appended by a first call with `addZeroEvaluation`
before the pass remains; on every other call the history is unchanged.
The counter is still incremented and aggregator state may stay partially
mutated. -/
theorem evaluateE_failure (e : EvaluatorE σ ε) (p : PredictorE ε) (err : ε)
    (h : (e.Evaluate p).2 = some err) :
    (e.Evaluate p).1.values =
      e.values ++
        (if e.evaluateCounter = 0 ∧ e.evaluatorParameters.addZeroEvaluation = true then
          [zeroEntryE e.aggregators] else []) ∧
    (¬(e.evaluateCounter = 0 ∧ e.evaluatorParameters.addZeroEvaluation = true) →
      (e.Evaluate p).1.values = e.values) ∧
    (e.Evaluate p).1.evaluateCounter = e.evaluateCounter + 1 := by
  unfold EvaluatorE.Evaluate at h ⊢
  by_cases h1 : e.evaluateCounter = 0 ∧ e.evaluatorParameters.addZeroEvaluation = true <;>
    by_cases h2 : e.evaluateCounter % e.evaluatorParameters.evaluationFrequency = 0
  · rw [if_pos h1, if_pos h2] at h ⊢
    dsimp only at h ⊢
    cases hpass : passRowsE p e.rowDataset (e.aggregators.map AggregatorE.reset) with
    | mk aggs2 errOpt =>
      cases errOpt with
      | none =>
        rw [hpass] at h
        simp at h
      | some err2 => simp [h1]
  · rw [if_pos h1, if_neg h2] at h
    simp at h
  · rw [if_neg h1, if_pos h2] at h ⊢
    dsimp only at h ⊢
    cases hpass : passRowsE p e.rowDataset (e.aggregators.map AggregatorE.reset) with
    | mk aggs2 errOpt =>
      cases errOpt with
      | none =>
        rw [hpass] at h
        simp at h
      | some err2 => simp [h1]
  · rw [if_neg h1, if_neg h2] at h
    simp at h

/-- C9 witness. -/
theorem evaluateE_failure_witness :
    (sampleEngineE.Evaluate failP).1.values =
      sampleEngineE.values ++
        (if sampleEngineE.evaluateCounter = 0 ∧
            sampleEngineE.evaluatorParameters.addZeroEvaluation = true then
          [zeroEntryE sampleEngineE.aggregators] else []) ∧
    (¬(sampleEngineE.evaluateCounter = 0 ∧
        sampleEngineE.evaluatorParameters.addZeroEvaluation = true) →
      (sampleEngineE.Evaluate failP).1.values = sampleEngineE.values) ∧
    (sampleEngineE.Evaluate failP).1.evaluateCounter = sampleEngineE.evaluateCounter + 1 :=
  evaluateE_failure sampleEngineE failP "boom" rfl

end evaluatorsE

namespace linear

/-- C10: the free stream-insertion operator forwards to the value's `Print`
exactly once and returns the stream exactly as `Print` left it, adding no
output of its own, so insertions chain. -/
theorem streamInsert_forwards_to_print (os : List String) (v w : Base) :
    streamInsert os v = v.Print os ∧
    streamInsert (streamInsert os v) w = w.Print (v.Print os) :=
  ⟨rfl, rfl⟩

end linear

end ELL
